import Mathlib

/-!
Line3: a 3D line segment (package math32, file line3.go)

Shallow embedding of `math32.Line3`.  The Go code works on `float32`; here the
scalar type is an arbitrary linearly ordered field `F`, so the definitions run
on `ℚ` and the theorems read the components as exact reals (`F := ℝ`).

The square root used by `Vector3.DistanceTo` is passed as the parameter `Sqrt`
(the theorems instantiate it with `Real.sqrt`).

Go pointers are embedded by value: a method that mutates its receiver returns
the receiver's new contents, and an optional out-parameter `*Vector3` is an
`Option (Vector3 F)` holding the prior contents of the caller's vector.
-/

namespace math32

variable {F : Type} [LinearOrderedField F]

/-! ## Vector3 (external to line3.go) -/

/-- Modelled from the spec: the type `Vector3` (spec: Point3) is declared outside
line3.go; the spec describes it as a 3-component real-valued vector. -/
structure Vector3 (F : Type) where
  X : F
  Y : F
  Z : F

/-- Modelled from the spec: `NewVector3(x, y, z)` is declared outside line3.go;
it allocates a vector with the given components. -/
def NewVector3 (x y z : F) : Vector3 F :=
  { X := x, Y := y, Z := z }

/-- Modelled from the spec: `NewVec3()` is declared outside line3.go; it
allocates the zero vector (spec: zero-initialized value, the origin point). -/
def NewVec3 : Vector3 F :=
  { X := 0, Y := 0, Z := 0 }

/-- Modelled from the spec: `v.AddVectors(a, b)` is declared outside line3.go;
spec §6 "add", standard Euclidean vector algebra: the receiver becomes `a + b`. -/
def Vector3.AddVectors (v a b : Vector3 F) : Vector3 F :=
  { v with X := a.X + b.X, Y := a.Y + b.Y, Z := a.Z + b.Z }

/-- Modelled from the spec: `v.SubVectors(a, b)` is declared outside line3.go;
spec §6 "subtract": the receiver becomes `a - b`. -/
def Vector3.SubVectors (v a b : Vector3 F) : Vector3 F :=
  { v with X := a.X - b.X, Y := a.Y - b.Y, Z := a.Z - b.Z }

/-- Modelled from the spec: `v.Add(other)` is declared outside line3.go;
spec §6 "add": the receiver becomes `v + other`. -/
def Vector3.Add (v other : Vector3 F) : Vector3 F :=
  { v with X := v.X + other.X, Y := v.Y + other.Y, Z := v.Z + other.Z }

/-- Modelled from the spec: `v.MultiplyScalar(s)` is declared outside line3.go;
spec §6 "scalar-multiply": the receiver becomes `v * s`. -/
def Vector3.MultiplyScalar (v : Vector3 F) (scalar : F) : Vector3 F :=
  { v with X := v.X * scalar, Y := v.Y * scalar, Z := v.Z * scalar }

/-- Modelled from the spec: `v.Dot(other)` is declared outside line3.go;
spec §6 "dot product". -/
def Vector3.Dot (v other : Vector3 F) : F :=
  v.X * other.X + v.Y * other.Y + v.Z * other.Z

/-- Modelled from the spec: `v.DistanceTo(other)` is declared outside line3.go;
spec §6 "Euclidean distance-to-another-point": the square root of the sum of
the squared component differences.  `Sqrt` is the scalar square root. -/
def Vector3.DistanceTo (Sqrt : F → F) (v other : Vector3 F) : F :=
  let dx := v.X - other.X
  let dy := v.Y - other.Y
  let dz := v.Z - other.Z
  Sqrt (dx * dx + dy * dy + dz * dz)

/-- Modelled from the spec: `v.Equals(other)` is declared outside line3.go;
spec §4.1 "exactly (component-wise) equal", no tolerance. -/
def Vector3.Equals (v other : Vector3 F) : Bool :=
  decide (other.X = v.X) && decide (other.Y = v.Y) && decide (other.Z = v.Z)

/-- Modelled from the spec: `v.Length()` is declared outside line3.go; the
Euclidean length of the vector, used by `Normalize`. -/
def Vector3.Length (Sqrt : F → F) (v : Vector3 F) : F :=
  Sqrt (v.X * v.X + v.Y * v.Y + v.Z * v.Z)

/-- Modelled from the spec: `v.Normalize()` is declared outside line3.go;
spec §6 "normalize (in place, returns self)": the receiver is divided by its
Euclidean length; "normalize of the zero vector is undefined/precondition
violation": that outcome is `none`. -/
def Vector3.Normalize (Sqrt : F → F) (v : Vector3 F) : Option (Vector3 F) :=
  let len := v.Length Sqrt
  if len = 0 then
    none
  else
    some { v with X := v.X / len, Y := v.Y / len, Z := v.Z / len }

/-- Modelled from the spec: the type `Matrix4` is declared outside line3.go;
spec §6 "4×4 real transform": `m i j` is the entry in row `i`, column `j`. -/
def Matrix4 (F : Type) : Type :=
  Fin 4 → Fin 4 → F

/-- Modelled from the spec: the identity transform of spec §8, with ones on the
diagonal and zeros elsewhere. -/
def Matrix4.Identity : Matrix4 F :=
  fun i j => if i = j then 1 else 0

/-- Modelled from the spec: `v.ApplyMatrix4(m)` is declared outside line3.go;
spec §6 "apply-to-point (returns transformed point, handling any
homogeneous-coordinate division)": the receiver becomes the image of the point
`(x, y, z, 1)` under `m`, divided by its fourth coordinate. -/
def Vector3.ApplyMatrix4 (v : Vector3 F) (m : Matrix4 F) : Vector3 F :=
  let x := v.X
  let y := v.Y
  let z := v.Z
  let w := m 3 0 * x + m 3 1 * y + m 3 2 * z + m 3 3
  { v with
    X := (m 0 0 * x + m 0 1 * y + m 0 2 * z + m 0 3) / w,
    Y := (m 1 0 * x + m 1 1 * y + m 1 2 * z + m 1 3) / w,
    Z := (m 2 0 * x + m 2 1 * y + m 2 2 * z + m 2 3) / w }

/-- Modelled from the spec: the type `Ray` is declared outside line3.go;
spec §6 "Ray (origin + direction)". -/
structure Ray (F : Type) where
  origin : Vector3 F
  direction : Vector3 F

/-- Modelled from the spec: `NewRay(origin, direction)` is declared outside
line3.go; spec §6 "constructed from an origin point and a direction vector",
"construction does not itself normalize". -/
def NewRay (origin direction : Vector3 F) : Ray F :=
  { origin := origin, direction := direction }

/-! ## Line3 (line3.go) -/

/-- Line3 represents a 3D line segment defined by a start and an end point. -/
structure Line3 (F : Type) where
  start : Vector3 F
  «end» : Vector3 F

/-- Set sets this line segment start and end points.  A `nil` pointer is
`none`; a non-nil pointer is `some` of the vector it points to.  Returns the
updated line segment. -/
def Line3.Set (l : Line3 F) (start «end» : Option (Vector3 F)) : Line3 F :=
  let l := match start with
    | some s => { l with start := s }
    | none => l
  let l := match «end» with
    | some e => { l with «end» := e }
    | none => l
  l

/-- NewLine3 creates a new Line3 with the specified start and end points:
`new(Line3)` is the zero value, then `l.Set(start, end)`. -/
def NewLine3 (start «end» : Option (Vector3 F)) : Line3 F :=
  let l : Line3 F := { start := ⟨0, 0, 0⟩, «end» := ⟨0, 0, 0⟩ }
  l.Set start «end»

/-- Copy copy other line segment to this one: `*l = *other; return l`.  The
first component is the receiver after the call (the returned pointer designates
it); the second is `other` after the call. -/
def Line3.Copy (_l other : Line3 F) : Line3 F × Line3 F :=
  let l := other
  (l, other)

/-- Center calculates this line segment center point.  The first component is
the vector the returned pointer designates; the second is the caller's target
after the call (`none` when no target was supplied). -/
def Line3.Center (l : Line3 F) (optionalTarget : Option (Vector3 F)) :
    Vector3 F × Option (Vector3 F) :=
  match optionalTarget with
  | none =>
    let result := NewVector3 (0 : F) 0 0
    ((result.AddVectors l.start l.«end»).MultiplyScalar 0.5, none)
  | some target =>
    let result := (target.AddVectors l.start l.«end»).MultiplyScalar 0.5
    (result, some result)

/-- Delta calculates the vector from the start to end point of this line
segment.  Same result convention as `Line3.Center`. -/
def Line3.Delta (l : Line3 F) (optionalTarget : Option (Vector3 F)) :
    Vector3 F × Option (Vector3 F) :=
  match optionalTarget with
  | none =>
    let result := NewVector3 (0 : F) 0 0
    (result.SubVectors l.«end» l.start, none)
  | some target =>
    let result := target.SubVectors l.«end» l.start
    (result, some result)

/-- DistanceSq: the body of the source is `return l.start.DistanceTo(&l.end)`. -/
def Line3.DistanceSq (Sqrt : F → F) (l : Line3 F) : F :=
  l.start.DistanceTo Sqrt l.«end»

/-- Distance returns the distance from the start point to the end point. -/
def Line3.Distance (Sqrt : F → F) (l : Line3 F) : F :=
  l.start.DistanceTo Sqrt l.«end»

/-- The scalar `d1` of `DistanceToVec3`: `w1.Dot(d)` with `w1 = v - start`,
`d = l.Delta(nil)`. -/
def Line3.d1 (l : Line3 F) (v : Vector3 F) : F :=
  let d := (l.Delta none).1
  let w1 := (NewVec3 : Vector3 F).SubVectors v l.start
  w1.Dot d

/-- The scalar `d2` of `DistanceToVec3`: `w2.Dot(d)` with `w2 = v - end`,
`d = l.Delta(nil)`. -/
def Line3.d2 (l : Line3 F) (v : Vector3 F) : F :=
  let d := (l.Delta none).1
  let w2 := (NewVec3 : Vector3 F).SubVectors v l.«end»
  w2.Dot d

/-- DistanceToVec3 returns the shortest distance between the line and a vector.
Read over exact scalars the quotient `d1 / l.DistanceSq()` is undefined for a
zero divisor: that outcome is `none`. -/
def Line3.DistanceToVec3 (Sqrt : F → F) (l : Line3 F) (v : Vector3 F) : Option F :=
  let d := (l.Delta none).1
  let w1 := (NewVec3 : Vector3 F).SubVectors v l.start
  let d1 := w1.Dot d
  if d1 ≤ 0 then
    some (v.DistanceTo Sqrt l.start)
  else
    let w2 := (NewVec3 : Vector3 F).SubVectors v l.«end»
    let d2 := w2.Dot d
    if d2 ≥ 0 then
      some (v.DistanceTo Sqrt l.«end»)
    else
      if l.DistanceSq Sqrt = 0 then
        none
      else
        let b := d1 / l.DistanceSq Sqrt
        let pb := (d.MultiplyScalar b).Add l.start
        some (pb.DistanceTo Sqrt v)

/-- ApplyMatrix4 applies the specified matrix to this line segment start and
end points.  Returns the updated line segment. -/
def Line3.ApplyMatrix4 (l : Line3 F) (matrix : Matrix4 F) : Line3 F :=
  let l := { l with start := l.start.ApplyMatrix4 matrix }
  let l := { l with «end» := l.«end».ApplyMatrix4 matrix }
  l

/-- Equals returns if this line segment is equal to other. -/
def Line3.Equals (l other : Line3 F) : Bool :=
  other.start.Equals l.start && other.«end».Equals l.«end»

/-- Clone creates and returns a copy of this line segment:
`NewLine3(&l.start, &l.end)`.  The first component is the new segment; the
second is the receiver after the call. -/
def Line3.Clone (l : Line3 F) : Line3 F × Line3 F :=
  (NewLine3 (some l.start) (some l.«end»), l)

/-- Ray converts the line to a ray: `NewRay(&l.start, l.Delta(nil).Normalize())`.
The first component is the new ray, `none` when `Normalize` is undefined; the
second is the receiver after the call. -/
def Line3.Ray (Sqrt : F → F) (l : Line3 F) : Option (Ray F) × Line3 F :=
  match (l.Delta none).1.Normalize Sqrt with
  | none => (none, l)
  | some direction => (some (NewRay l.start direction), l)

/-- Specification side, from the spec's words "start + t*(end - start)": the
point of the line through `start` and `end` at parameter `t`; it lies on the
segment when `0 ≤ t ≤ 1`. -/
def Line3.specPointAt (l : Line3 F) (t : F) : Vector3 F :=
  { X := l.start.X + t * (l.«end».X - l.start.X),
    Y := l.start.Y + t * (l.«end».Y - l.start.Y),
    Z := l.start.Z + t * (l.«end».Z - l.start.Z) }

/-- Specification side, from the spec's words "squaredLength": the squared
Euclidean length of `end - start`. -/
def Line3.specSquaredLength (l : Line3 F) : F :=
  (l.«end».X - l.start.X) ^ 2 + (l.«end».Y - l.start.Y) ^ 2 + (l.«end».Z - l.start.Z) ^ 2

/-- Specification side, from the words "the minimum over t in [0,1] of
|p - (start + t*(end - start))|": `m` is the shortest distance from `p` to the
segment when it is the distance to some point of the segment and no point of
the segment is nearer. -/
def Line3.specIsShortestDistance (Sqrt : F → F) (l : Line3 F) (p : Vector3 F) (m : F) :
    Prop :=
  (∃ t : F, 0 ≤ t ∧ t ≤ 1 ∧ m = p.DistanceTo Sqrt (l.specPointAt t)) ∧
  ∀ t : F, 0 ≤ t → t ≤ 1 → m ≤ p.DistanceTo Sqrt (l.specPointAt t)

/-- Auxiliary: the sum of squared component differences, the quantity under the
square root of `Vector3.DistanceTo`. -/
def Vector3.sqDist (v other : Vector3 F) : F :=
  (v.X - other.X) * (v.X - other.X) + (v.Y - other.Y) * (v.Y - other.Y)
    + (v.Z - other.Z) * (v.Z - other.Z)

/-! ## Unfolding lemmas -/

theorem Line3.d1_eq (l : Line3 F) (v : Vector3 F) :
    l.d1 v = (v.X - l.start.X) * (l.«end».X - l.start.X)
      + (v.Y - l.start.Y) * (l.«end».Y - l.start.Y)
      + (v.Z - l.start.Z) * (l.«end».Z - l.start.Z) := by
  simp [Line3.d1, Line3.Delta, NewVector3, NewVec3, Vector3.SubVectors, Vector3.Dot]

theorem Line3.d2_eq (l : Line3 F) (v : Vector3 F) :
    l.d2 v = (v.X - l.«end».X) * (l.«end».X - l.start.X)
      + (v.Y - l.«end».Y) * (l.«end».Y - l.start.Y)
      + (v.Z - l.«end».Z) * (l.«end».Z - l.start.Z) := by
  simp [Line3.d2, Line3.Delta, NewVector3, NewVec3, Vector3.SubVectors, Vector3.Dot]

/-- The branch structure of `DistanceToVec3` in terms of `d1` and `d2`. -/
theorem Line3.DistanceToVec3_eq (Sqrt : F → F) (l : Line3 F) (v : Vector3 F) :
    l.DistanceToVec3 Sqrt v =
      if l.d1 v ≤ 0 then some (v.DistanceTo Sqrt l.start)
      else if 0 ≤ l.d2 v then some (v.DistanceTo Sqrt l.«end»)
      else if l.DistanceSq Sqrt = 0 then none
      else some ((((l.Delta none).1.MultiplyScalar (l.d1 v / l.DistanceSq Sqrt)).Add
        l.start).DistanceTo Sqrt v) := by
  rfl

theorem sqrt_twentyfive : Real.sqrt 25 = 5 := by
  rw [show (25 : ℝ) = 5 ^ 2 by norm_num]
  exact Real.sqrt_sq (by norm_num)

theorem sqrt_nine : Real.sqrt 9 = 3 := by
  rw [show (9 : ℝ) = 3 ^ 2 by norm_num]
  exact Real.sqrt_sq (by norm_num)

/-! ## Endpoint branches of DistanceToVec3 -/

theorem Line3.DistanceToVec3_of_d1_nonpos (Sqrt : F → F) (l : Line3 F) (p : Vector3 F)
    (h1 : l.d1 p ≤ 0) :
    l.DistanceToVec3 Sqrt p = some (p.DistanceTo Sqrt l.start) := by
  rw [Line3.DistanceToVec3_eq, if_pos h1]

theorem Line3.DistanceToVec3_of_d2_nonneg (Sqrt : F → F) (l : Line3 F) (p : Vector3 F)
    (h1 : 0 < l.d1 p) (h2 : 0 ≤ l.d2 p) :
    l.DistanceToVec3 Sqrt p = some (p.DistanceTo Sqrt l.«end») := by
  rw [Line3.DistanceToVec3_eq, if_neg (not_le.mpr h1), if_pos h2]

/-- C3: whenever `d1 = dot(p - start, end - start) ≤ 0` (the boundary `d1 = 0`
included), `DistanceToVec3` returns exactly `distance(p, start)`; the interior
branch is not taken.  This holds for every scalar field and square root. -/
theorem DistanceToVec3_clamps_to_start (Sqrt : F → F) (l : Line3 F) (p : Vector3 F)
    (h1 : l.d1 p ≤ 0) :
    l.DistanceToVec3 Sqrt p = some (p.DistanceTo Sqrt l.start) := by
  rw [Line3.DistanceToVec3_eq, if_pos h1]

/-- C3 at start=(0,0,0), end=(10,0,0), p=(-5,0,0): the result is 5. -/
theorem DistanceToVec3_clamps_to_start_witness :
    Line3.d1 (F := ℝ) ⟨⟨0, 0, 0⟩, ⟨10, 0, 0⟩⟩ ⟨-5, 0, 0⟩ ≤ 0 ∧
    Line3.DistanceToVec3 Real.sqrt ⟨⟨0, 0, 0⟩, ⟨10, 0, 0⟩⟩ ⟨-5, 0, 0⟩ = some 5 := by
  have h : Line3.d1 (F := ℝ) ⟨⟨0, 0, 0⟩, ⟨10, 0, 0⟩⟩ ⟨-5, 0, 0⟩ ≤ 0 := by
    rw [Line3.d1_eq]; norm_num
  refine ⟨h, ?_⟩
  rw [DistanceToVec3_clamps_to_start Real.sqrt _ _ h]
  norm_num [Vector3.DistanceTo, sqrt_twentyfive]

/-- C4: whenever `d1 > 0` and `d2 = dot(p - end, end - start) ≥ 0` (the boundary
`d2 = 0` included), `DistanceToVec3` returns exactly `distance(p, end)`.  This
holds for every scalar field and square root. -/
theorem DistanceToVec3_clamps_to_end (Sqrt : F → F) (l : Line3 F) (p : Vector3 F)
    (h1 : 0 < l.d1 p) (h2 : 0 ≤ l.d2 p) :
    l.DistanceToVec3 Sqrt p = some (p.DistanceTo Sqrt l.«end») := by
  rw [Line3.DistanceToVec3_eq, if_neg (not_le.mpr h1), if_pos h2]

/-- C4 at start=(0,0,0), end=(10,0,0), p=(15,0,0): the result is 5. -/
theorem DistanceToVec3_clamps_to_end_witness :
    0 < Line3.d1 (F := ℝ) ⟨⟨0, 0, 0⟩, ⟨10, 0, 0⟩⟩ ⟨15, 0, 0⟩ ∧
    0 ≤ Line3.d2 (F := ℝ) ⟨⟨0, 0, 0⟩, ⟨10, 0, 0⟩⟩ ⟨15, 0, 0⟩ ∧
    Line3.DistanceToVec3 Real.sqrt ⟨⟨0, 0, 0⟩, ⟨10, 0, 0⟩⟩ ⟨15, 0, 0⟩ = some 5 := by
  have h1 : 0 < Line3.d1 (F := ℝ) ⟨⟨0, 0, 0⟩, ⟨10, 0, 0⟩⟩ ⟨15, 0, 0⟩ := by
    rw [Line3.d1_eq]; norm_num
  have h2 : 0 ≤ Line3.d2 (F := ℝ) ⟨⟨0, 0, 0⟩, ⟨10, 0, 0⟩⟩ ⟨15, 0, 0⟩ := by
    rw [Line3.d2_eq]; norm_num
  refine ⟨h1, h2, ?_⟩
  rw [DistanceToVec3_clamps_to_end Real.sqrt _ _ h1 h2]
  norm_num [Vector3.DistanceTo, sqrt_twentyfive]

/-! ## Degenerate segments and the division -/

/-- The sum of squares under the square root of `DistanceSq` / `Distance`. -/
theorem Line3.DistanceSq_eq (Sqrt : F → F) (l : Line3 F) :
    l.DistanceSq Sqrt = Sqrt ((l.start.X - l.«end».X) * (l.start.X - l.«end».X)
      + (l.start.Y - l.«end».Y) * (l.start.Y - l.«end».Y)
      + (l.start.Z - l.«end».Z) * (l.start.Z - l.«end».Z)) := by
  rfl

/-- A positive `d1` forces distinct endpoints: the sum of squared component
differences is positive. -/
theorem Line3.sumsq_pos_of_d1_pos (l : Line3 F) (v : Vector3 F) (h1 : 0 < l.d1 v) :
    0 < (l.start.X - l.«end».X) * (l.start.X - l.«end».X)
      + (l.start.Y - l.«end».Y) * (l.start.Y - l.«end».Y)
      + (l.start.Z - l.«end».Z) * (l.start.Z - l.«end».Z) := by
  rw [Line3.d1_eq] at h1
  by_contra hle
  have hx := mul_self_nonneg (l.start.X - l.«end».X)
  have hy := mul_self_nonneg (l.start.Y - l.«end».Y)
  have hz := mul_self_nonneg (l.start.Z - l.«end».Z)
  have ex : l.start.X - l.«end».X = 0 := mul_self_eq_zero.mp (by linarith)
  have ey : l.start.Y - l.«end».Y = 0 := mul_self_eq_zero.mp (by linarith)
  have ez : l.start.Z - l.«end».Z = 0 := mul_self_eq_zero.mp (by linarith)
  have fx : l.«end».X - l.start.X = 0 := by linarith
  have fy : l.«end».Y - l.start.Y = 0 := by linarith
  have fz : l.«end».Z - l.start.Z = 0 := by linarith
  rw [fx, fy, fz] at h1
  simp at h1

/-- On a degenerate segment `d1` vanishes. -/
theorem Line3.d1_degenerate (l : Line3 F) (v : Vector3 F) (h : l.start = l.«end») :
    l.d1 v = 0 := by
  rw [Line3.d1_eq, h]
  simp

/-- C5: for a degenerate segment (start = end) and every point `p`,
`DistanceToVec3` returns the defined value `distance(p, start)`.  This holds
for every scalar field and square root. -/
theorem DistanceToVec3_degenerate (Sqrt : F → F) (l : Line3 F) (p : Vector3 F)
    (h : l.start = l.«end») :
    l.DistanceToVec3 Sqrt p = some (p.DistanceTo Sqrt l.start) := by
  rw [Line3.DistanceToVec3_eq, if_pos (le_of_eq (Line3.d1_degenerate l p h))]

/-- C5 at start=end=(2,2,2), p=(5,2,2): the result is 3. -/
theorem DistanceToVec3_degenerate_witness :
    (⟨⟨2, 2, 2⟩, ⟨2, 2, 2⟩⟩ : Line3 ℝ).start = (⟨⟨2, 2, 2⟩, ⟨2, 2, 2⟩⟩ : Line3 ℝ).«end» ∧
    Line3.DistanceToVec3 Real.sqrt ⟨⟨2, 2, 2⟩, ⟨2, 2, 2⟩⟩ ⟨5, 2, 2⟩ = some 3 := by
  refine ⟨rfl, ?_⟩
  rw [DistanceToVec3_degenerate Real.sqrt _ _ rfl]
  norm_num [Vector3.DistanceTo, sqrt_nine]

/-- C6: whenever execution reaches the division `d1 / l.DistanceSq()` (that is
`d1 > 0` and `d2 < 0`), over exact reals the divisor `l.DistanceSq()` is
non-zero, the segment is not degenerate, and the call yields the value of the
interior branch (never the undefined quotient). -/
theorem DistanceToVec3_divisor_ne_zero (l : Line3 ℝ) (p : Vector3 ℝ)
    (h1 : 0 < l.d1 p) (h2 : l.d2 p < 0) :
    l.DistanceSq Real.sqrt ≠ 0 ∧ l.start ≠ l.«end» ∧
    l.DistanceToVec3 Real.sqrt p =
      some ((((l.Delta none).1.MultiplyScalar (l.d1 p / l.DistanceSq Real.sqrt)).Add
        l.start).DistanceTo Real.sqrt p) := by
  have hd : l.DistanceSq Real.sqrt ≠ 0 := by
    rw [Line3.DistanceSq_eq]
    exact Real.sqrt_ne_zero'.mpr (Line3.sumsq_pos_of_d1_pos l p h1)
  refine ⟨hd, ?_, ?_⟩
  · intro he
    exact absurd (Line3.d1_degenerate l p he) (ne_of_gt h1)
  · rw [Line3.DistanceToVec3_eq, if_neg (not_le.mpr h1), if_neg (not_le.mpr h2), if_neg hd]

/-- C6 at start=(0,0,0), end=(10,0,0), p=(5,3,0): the division is reached and
its divisor is non-zero. -/
theorem DistanceToVec3_divisor_ne_zero_witness :
    0 < Line3.d1 (F := ℝ) ⟨⟨0, 0, 0⟩, ⟨10, 0, 0⟩⟩ ⟨5, 3, 0⟩ ∧
    Line3.d2 (F := ℝ) ⟨⟨0, 0, 0⟩, ⟨10, 0, 0⟩⟩ ⟨5, 3, 0⟩ < 0 ∧
    Line3.DistanceSq Real.sqrt ⟨⟨0, 0, 0⟩, ⟨10, 0, 0⟩⟩ ≠ 0 := by
  have h1 : 0 < Line3.d1 (F := ℝ) ⟨⟨0, 0, 0⟩, ⟨10, 0, 0⟩⟩ ⟨5, 3, 0⟩ := by
    rw [Line3.d1_eq]; norm_num
  have h2 : Line3.d2 (F := ℝ) ⟨⟨0, 0, 0⟩, ⟨10, 0, 0⟩⟩ ⟨5, 3, 0⟩ < 0 := by
    rw [Line3.d2_eq]; norm_num
  exact ⟨h1, h2, (DistanceToVec3_divisor_ne_zero _ _ h1 h2).1⟩

/-- Over exact reals `DistanceToVec3` is defined on every input. -/
theorem Line3.DistanceToVec3_isSome (l : Line3 ℝ) (p : Vector3 ℝ) :
    (l.DistanceToVec3 Real.sqrt p).isSome = true := by
  rcases le_or_lt (l.d1 p) 0 with h1 | h1
  · rw [Line3.DistanceToVec3_eq, if_pos h1]; rfl
  · rcases le_or_lt 0 (l.d2 p) with h2 | h2
    · rw [Line3.DistanceToVec3_eq, if_neg (not_le.mpr h1), if_pos h2]; rfl
    · have hd : l.DistanceSq Real.sqrt ≠ 0 := by
        rw [Line3.DistanceSq_eq]
        exact Real.sqrt_ne_zero'.mpr (Line3.sumsq_pos_of_d1_pos l p h1)
      rw [Line3.DistanceToVec3_eq, if_neg (not_le.mpr h1), if_neg (not_le.mpr h2), if_neg hd]
      rfl

/-! ## The length accessors -/

theorem sqrt_hundred : Real.sqrt 100 = 10 := by
  rw [show (100 : ℝ) = 10 ^ 2 by norm_num]
  exact Real.sqrt_sq (by norm_num)

/-- C7, evaluated on the code: for start=(0,0,0), end=(3,4,0) `DistanceSq`
returns 5, the distance itself, and not the squared distance 25. -/
theorem DistanceSq_is_not_squared :
    Line3.DistanceSq Real.sqrt ⟨⟨0, 0, 0⟩, ⟨3, 4, 0⟩⟩ = 5 ∧
    Line3.DistanceSq Real.sqrt ⟨⟨0, 0, 0⟩, ⟨3, 4, 0⟩⟩ ≠
      Line3.specSquaredLength (F := ℝ) ⟨⟨0, 0, 0⟩, ⟨3, 4, 0⟩⟩ := by
  have h : Line3.DistanceSq Real.sqrt ⟨⟨0, 0, 0⟩, ⟨3, 4, 0⟩⟩ = 5 := by
    rw [Line3.DistanceSq_eq]
    norm_num [sqrt_twentyfive]
  refine ⟨h, ?_⟩
  rw [h]
  norm_num [Line3.specSquaredLength]

/-- C8: for every segment `DistanceSq` and `Distance` return the same value,
and that value is the non-squared Euclidean distance between start and end: it
is non-negative and its square is the squared length. -/
theorem DistanceSq_eq_Distance (l : Line3 ℝ) :
    l.DistanceSq Real.sqrt = l.Distance Real.sqrt ∧
    0 ≤ l.DistanceSq Real.sqrt ∧
    (l.DistanceSq Real.sqrt) ^ 2 = l.specSquaredLength := by
  refine ⟨rfl, ?_, ?_⟩
  · rw [Line3.DistanceSq_eq]
    exact Real.sqrt_nonneg _
  · rw [Line3.DistanceSq_eq, Real.sq_sqrt]
    · simp only [Line3.specSquaredLength]
      ring
    · nlinarith [mul_self_nonneg (l.start.X - l.«end».X),
        mul_self_nonneg (l.start.Y - l.«end».Y), mul_self_nonneg (l.start.Z - l.«end».Z)]

/-- C9: for every segment `Distance` is
`sqrt((end.x-start.x)^2 + (end.y-start.y)^2 + (end.z-start.z)^2)`; for
start=(0,0,0), end=(3,4,0) it is 5. -/
theorem Distance_eq_euclidean :
    (∀ l : Line3 ℝ, l.Distance Real.sqrt =
      Real.sqrt ((l.«end».X - l.start.X) ^ 2 + (l.«end».Y - l.start.Y) ^ 2
        + (l.«end».Z - l.start.Z) ^ 2)) ∧
    Line3.Distance Real.sqrt ⟨⟨0, 0, 0⟩, ⟨3, 4, 0⟩⟩ = 5 := by
  constructor
  · intro l
    simp only [Line3.Distance, Vector3.DistanceTo]
    congr 1
    ring
  · norm_num [Line3.Distance, Vector3.DistanceTo, sqrt_twentyfive]

/-! ## Center -/

/-- C10: with no target, and with a caller-supplied target of any prior
contents, `Center` returns `(start + end) * 0.5`, which is the component-wise
average of the endpoints; a supplied target holds that same point after the
call; for start=(0,0,0), end=(2,4,6) the result is (1,2,3). -/
theorem Center_eq_average :
    (∀ (l : Line3 ℝ) (optionalTarget : Option (Vector3 ℝ)),
      (l.Center optionalTarget).1 =
        ⟨(l.start.X + l.«end».X) * 0.5, (l.start.Y + l.«end».Y) * 0.5,
          (l.start.Z + l.«end».Z) * 0.5⟩ ∧
      (l.Center optionalTarget).1 =
        ⟨(l.start.X + l.«end».X) / 2, (l.start.Y + l.«end».Y) / 2,
          (l.start.Z + l.«end».Z) / 2⟩) ∧
    (∀ (l : Line3 ℝ) (target : Vector3 ℝ),
      (l.Center (some target)).2 = some (l.Center (some target)).1 ∧
      (l.Center (some target)).1 = (l.Center none).1) ∧
    (Line3.Center (F := ℝ) ⟨⟨0, 0, 0⟩, ⟨2, 4, 6⟩⟩ none).1 = ⟨1, 2, 3⟩ := by
  refine ⟨?_, ?_, ?_⟩
  · intro l optionalTarget
    cases optionalTarget <;>
      simp [Line3.Center, NewVector3, Vector3.AddVectors, Vector3.MultiplyScalar] <;>
      norm_num <;> refine ⟨?_, ?_, ?_⟩ <;> ring
  · intro l target
    exact ⟨rfl, rfl⟩
  · simp [Line3.Center, NewVector3, Vector3.AddVectors, Vector3.MultiplyScalar]
    norm_num

/-! ## The interior branch of DistanceToVec3 -/

/-- The code on start=(0,0,0), end=(10,0,0), v=(5,3,0): `d1 = 50`, `d2 = -50`,
the divisor `DistanceSq()` is 10, so `b = 5`, `pb = (50,0,0)` and the result is
`sqrt(45*45 + 3*3) = sqrt 2034`. -/
theorem Line3.DistanceToVec3_interior_example :
    Line3.DistanceToVec3 Real.sqrt ⟨⟨0, 0, 0⟩, ⟨10, 0, 0⟩⟩ ⟨5, 3, 0⟩ =
      some (Real.sqrt 2034) := by
  have h1 : ¬ Line3.d1 (F := ℝ) ⟨⟨0, 0, 0⟩, ⟨10, 0, 0⟩⟩ ⟨5, 3, 0⟩ ≤ 0 := by
    rw [Line3.d1_eq]; norm_num
  have h2 : ¬ 0 ≤ Line3.d2 (F := ℝ) ⟨⟨0, 0, 0⟩, ⟨10, 0, 0⟩⟩ ⟨5, 3, 0⟩ := by
    rw [Line3.d2_eq]; norm_num
  have hd : Line3.DistanceSq Real.sqrt ⟨⟨0, 0, 0⟩, ⟨10, 0, 0⟩⟩ = 10 := by
    rw [Line3.DistanceSq_eq]; norm_num [sqrt_hundred]
  rw [Line3.DistanceToVec3_eq, if_neg h1, if_neg h2, hd, if_neg (by norm_num), Line3.d1_eq]
  simp only [Line3.Delta, NewVector3, Vector3.SubVectors, Vector3.MultiplyScalar,
    Vector3.Add, Vector3.DistanceTo]
  norm_num

theorem three_lt_sqrt_2034 : (3 : ℝ) < Real.sqrt 2034 := by
  rw [Real.lt_sqrt (by norm_num)]
  norm_num

/-- C1, evaluated on the code: for start=(0,0,0), end=(10,0,0), p=(5,3,0) the
value returned by `DistanceToVec3` is `sqrt 2034`, while the segment point at
`t = 1/2` is at distance 3 from `p`: the returned value is not the minimum over
`t` in `[0,1]` of `|p - (start + t*(end - start))|`. -/
theorem DistanceToVec3_is_not_shortest :
    ∃ t r : ℝ, 0 ≤ t ∧ t ≤ 1 ∧
      Line3.DistanceToVec3 Real.sqrt ⟨⟨0, 0, 0⟩, ⟨10, 0, 0⟩⟩ ⟨5, 3, 0⟩ = some r ∧
      Vector3.DistanceTo Real.sqrt ⟨5, 3, 0⟩
        (Line3.specPointAt (F := ℝ) ⟨⟨0, 0, 0⟩, ⟨10, 0, 0⟩⟩ t) < r := by
  refine ⟨1 / 2, Real.sqrt 2034, by norm_num, by norm_num,
    Line3.DistanceToVec3_interior_example, ?_⟩
  have h : Vector3.DistanceTo Real.sqrt ⟨5, 3, 0⟩
      (Line3.specPointAt (F := ℝ) ⟨⟨0, 0, 0⟩, ⟨10, 0, 0⟩⟩ (1 / 2)) = 3 := by
    simp only [Line3.specPointAt, Vector3.DistanceTo]
    norm_num [sqrt_nine]
  rw [h]
  exact three_lt_sqrt_2034

/-- C2, evaluated on the code: for start=(0,0,0), end=(10,0,0), p=(5,3,0) the
projection is strictly inside (`d1 > 0`, `d2 < 0`) and `distance(p, pb)` with
`b = d1 / squaredLength` is 3, but `DistanceToVec3` returns `sqrt 2034`, which
is not 3. -/
theorem DistanceToVec3_interior_is_not_projection :
    0 < Line3.d1 (F := ℝ) ⟨⟨0, 0, 0⟩, ⟨10, 0, 0⟩⟩ ⟨5, 3, 0⟩ ∧
    Line3.d2 (F := ℝ) ⟨⟨0, 0, 0⟩, ⟨10, 0, 0⟩⟩ ⟨5, 3, 0⟩ < 0 ∧
    Vector3.DistanceTo Real.sqrt ⟨5, 3, 0⟩
      (Line3.specPointAt (F := ℝ) ⟨⟨0, 0, 0⟩, ⟨10, 0, 0⟩⟩
        (Line3.d1 (F := ℝ) ⟨⟨0, 0, 0⟩, ⟨10, 0, 0⟩⟩ ⟨5, 3, 0⟩ /
          Line3.specSquaredLength (F := ℝ) ⟨⟨0, 0, 0⟩, ⟨10, 0, 0⟩⟩)) = 3 ∧
    Line3.DistanceToVec3 Real.sqrt ⟨⟨0, 0, 0⟩, ⟨10, 0, 0⟩⟩ ⟨5, 3, 0⟩ =
      some (Real.sqrt 2034) ∧
    Line3.DistanceToVec3 Real.sqrt ⟨⟨0, 0, 0⟩, ⟨10, 0, 0⟩⟩ ⟨5, 3, 0⟩ ≠ some 3 := by
  refine ⟨?_, ?_, ?_, Line3.DistanceToVec3_interior_example, ?_⟩
  · rw [Line3.d1_eq]; norm_num
  · rw [Line3.d2_eq]; norm_num
  · rw [Line3.d1_eq]
    simp only [Line3.specPointAt, Line3.specSquaredLength, Vector3.DistanceTo]
    norm_num [sqrt_nine]
  · rw [Line3.DistanceToVec3_interior_example]
    intro h
    have h3 := three_lt_sqrt_2034
    rw [Option.some.inj h] at h3
    exact lt_irrefl _ h3

/-! ## Delta -/

/-- C11: with no target, and with a caller-supplied target of any prior
contents, `Delta` returns the vector `end - start`; a supplied target holds
that same vector after the call; for start=(1,1,1), end=(4,5,1) the result is
(3,4,0). -/
theorem Delta_eq_end_sub_start :
    (∀ (l : Line3 ℝ) (optionalTarget : Option (Vector3 ℝ)),
      (l.Delta optionalTarget).1 =
        ⟨l.«end».X - l.start.X, l.«end».Y - l.start.Y, l.«end».Z - l.start.Z⟩) ∧
    (∀ (l : Line3 ℝ) (target : Vector3 ℝ),
      (l.Delta (some target)).2 = some (l.Delta (some target)).1) ∧
    (Line3.Delta (F := ℝ) ⟨⟨1, 1, 1⟩, ⟨4, 5, 1⟩⟩ none).1 = ⟨3, 4, 0⟩ := by
  refine ⟨?_, ?_, ?_⟩
  · intro l optionalTarget
    cases optionalTarget <;> rfl
  · intro l target
    rfl
  · simp only [Line3.Delta, NewVector3, Vector3.SubVectors]
    norm_num

/-! ## Set, NewLine3, Copy -/

/-- C12: `Set` overwrites exactly the endpoints that are provided and leaves an
omitted (nil) endpoint unchanged. -/
theorem Set_overwrites_provided (s : Line3 ℝ) (a e : Vector3 ℝ) :
    s.Set none (some e) = ⟨s.start, e⟩ ∧
    s.Set (some a) none = ⟨a, s.«end»⟩ ∧
    s.Set none none = s ∧
    s.Set (some a) (some e) = ⟨a, e⟩ ∧
    ∀ start «end» : Option (Vector3 ℝ),
      (s.Set start «end»).start = start.getD s.start ∧
      (s.Set start «end»).«end» = «end».getD s.«end» := by
  refine ⟨rfl, rfl, rfl, rfl, ?_⟩
  intro start «end»
  cases start <;> cases «end» <;> exact ⟨rfl, rfl⟩

/-- C13: `NewLine3` is total; each provided endpoint has the given value and
each omitted (nil) endpoint is the origin (0,0,0). -/
theorem NewLine3_endpoints (a e : Vector3 ℝ) :
    NewLine3 (F := ℝ) none none = ⟨⟨0, 0, 0⟩, ⟨0, 0, 0⟩⟩ ∧
    NewLine3 (some a) none = ⟨a, ⟨0, 0, 0⟩⟩ ∧
    NewLine3 none (some e) = ⟨⟨0, 0, 0⟩, e⟩ ∧
    NewLine3 (some a) (some e) = ⟨a, e⟩ ∧
    ∀ start «end» : Option (Vector3 ℝ),
      (NewLine3 start «end»).start = start.getD ⟨0, 0, 0⟩ ∧
      (NewLine3 start «end»).«end» = «end».getD ⟨0, 0, 0⟩ := by
  refine ⟨rfl, rfl, rfl, rfl, ?_⟩
  intro start «end»
  cases start <;> cases «end» <;> exact ⟨rfl, rfl⟩

/-- C15: after `l.Copy(other)` both fields of `l` equal the corresponding
fields of `other`, whatever `l` held before, and `other` is unchanged. -/
theorem Copy_takes_both_fields (l other : Line3 ℝ) :
    (l.Copy other).1.start = other.start ∧
    (l.Copy other).1.«end» = other.«end» ∧
    (l.Copy other).2 = other := by
  exact ⟨rfl, rfl, rfl⟩

/-! ## Equals and Clone -/

theorem Vector3.Equals_iff_components (v other : Vector3 F) :
    v.Equals other = true ↔ v.X = other.X ∧ v.Y = other.Y ∧ v.Z = other.Z := by
  simp only [Vector3.Equals, Bool.and_eq_true, decide_eq_true_eq]
  constructor
  · rintro ⟨⟨hx, hy⟩, hz⟩
    exact ⟨hx.symm, hy.symm, hz.symm⟩
  · rintro ⟨hx, hy, hz⟩
    exact ⟨⟨hx.symm, hy.symm⟩, hz.symm⟩

theorem Line3.Equals_iff_endpoints (a b : Line3 F) :
    a.Equals b = true ↔
      (a.start.X = b.start.X ∧ a.start.Y = b.start.Y ∧ a.start.Z = b.start.Z) ∧
      (a.«end».X = b.«end».X ∧ a.«end».Y = b.«end».Y ∧ a.«end».Z = b.«end».Z) := by
  simp only [Line3.Equals, Bool.and_eq_true, Vector3.Equals_iff_components]
  constructor
  · rintro ⟨⟨hx, hy, hz⟩, ⟨kx, ky, kz⟩⟩
    exact ⟨⟨hx.symm, hy.symm, hz.symm⟩, ⟨kx.symm, ky.symm, kz.symm⟩⟩
  · rintro ⟨⟨hx, hy, hz⟩, ⟨kx, ky, kz⟩⟩
    exact ⟨⟨hx.symm, hy.symm, hz.symm⟩, ⟨kx.symm, ky.symm, kz.symm⟩⟩

theorem Line3.Equals_eq_false_of_ne (a b : Line3 F)
    (h : ¬ ((a.start.X = b.start.X ∧ a.start.Y = b.start.Y ∧ a.start.Z = b.start.Z) ∧
      (a.«end».X = b.«end».X ∧ a.«end».Y = b.«end».Y ∧ a.«end».Z = b.«end».Z))) :
    a.Equals b = false := by
  rw [← Bool.not_eq_true, Line3.Equals_iff_endpoints]
  exact h

/-- C14: `s.Clone()` is a segment with the same start and end as `s`, so
`s.Clone().Equals(s)` is true, and `s` itself is unchanged by the call. -/
theorem Clone_equals_original (s : Line3 ℝ) :
    s.Clone.1.start = s.start ∧ s.Clone.1.«end» = s.«end» ∧
    s.Clone.1.Equals s = true ∧ s.Clone.2 = s := by
  refine ⟨rfl, rfl, ?_, rfl⟩
  rw [Line3.Equals_iff_endpoints]
  exact ⟨⟨rfl, rfl, rfl⟩, ⟨rfl, rfl, rfl⟩⟩

/-- C16: `a.Equals(b)` is true exactly when start and end are component-wise
equal; `Equals` is reflexive and symmetric; and changing any single component
of a segment by a non-zero amount `ε`, however small, makes `Equals` false. -/
theorem Equals_exact (a b : Line3 ℝ) (ε : ℝ) (hε : ε ≠ 0) :
    (a.Equals b = true ↔
      (a.start.X = b.start.X ∧ a.start.Y = b.start.Y ∧ a.start.Z = b.start.Z) ∧
      (a.«end».X = b.«end».X ∧ a.«end».Y = b.«end».Y ∧ a.«end».Z = b.«end».Z)) ∧
    a.Equals a = true ∧
    a.Equals b = b.Equals a ∧
    Line3.Equals ⟨⟨a.start.X + ε, a.start.Y, a.start.Z⟩, a.«end»⟩ a = false ∧
    Line3.Equals ⟨⟨a.start.X, a.start.Y + ε, a.start.Z⟩, a.«end»⟩ a = false ∧
    Line3.Equals ⟨⟨a.start.X, a.start.Y, a.start.Z + ε⟩, a.«end»⟩ a = false ∧
    Line3.Equals ⟨a.start, ⟨a.«end».X + ε, a.«end».Y, a.«end».Z⟩⟩ a = false ∧
    Line3.Equals ⟨a.start, ⟨a.«end».X, a.«end».Y + ε, a.«end».Z⟩⟩ a = false ∧
    Line3.Equals ⟨a.start, ⟨a.«end».X, a.«end».Y, a.«end».Z + ε⟩⟩ a = false := by
  refine ⟨Line3.Equals_iff_endpoints a b, ?_, ?_, ?_, ?_, ?_, ?_, ?_, ?_⟩
  · rw [Line3.Equals_iff_endpoints]
    exact ⟨⟨rfl, rfl, rfl⟩, ⟨rfl, rfl, rfl⟩⟩
  · rw [Bool.eq_iff_iff, Line3.Equals_iff_endpoints, Line3.Equals_iff_endpoints]
    constructor
    · rintro ⟨⟨hx, hy, hz⟩, ⟨kx, ky, kz⟩⟩
      exact ⟨⟨hx.symm, hy.symm, hz.symm⟩, ⟨kx.symm, ky.symm, kz.symm⟩⟩
    · rintro ⟨⟨hx, hy, hz⟩, ⟨kx, ky, kz⟩⟩
      exact ⟨⟨hx.symm, hy.symm, hz.symm⟩, ⟨kx.symm, ky.symm, kz.symm⟩⟩
  · apply Line3.Equals_eq_false_of_ne
    rintro ⟨⟨hx, -, -⟩, -⟩
    exact hε (by simpa using hx)
  · apply Line3.Equals_eq_false_of_ne
    rintro ⟨⟨-, hy, -⟩, -⟩
    exact hε (by simpa using hy)
  · apply Line3.Equals_eq_false_of_ne
    rintro ⟨⟨-, -, hz⟩, -⟩
    exact hε (by simpa using hz)
  · apply Line3.Equals_eq_false_of_ne
    rintro ⟨-, ⟨hx, -, -⟩⟩
    exact hε (by simpa using hx)
  · apply Line3.Equals_eq_false_of_ne
    rintro ⟨-, ⟨-, hy, -⟩⟩
    exact hε (by simpa using hy)
  · apply Line3.Equals_eq_false_of_ne
    rintro ⟨-, ⟨-, -, hz⟩⟩
    exact hε (by simpa using hz)

/-- C16 at a = b = (0,0,0)-(3,4,0) and ε = 1/1000000: the perturbed segment is
not `Equals` to the original. -/
theorem Equals_exact_witness :
    (1 / 1000000 : ℝ) ≠ 0 ∧
    Line3.Equals (F := ℝ) ⟨⟨0 + 1 / 1000000, 0, 0⟩, ⟨3, 4, 0⟩⟩ ⟨⟨0, 0, 0⟩, ⟨3, 4, 0⟩⟩ = false := by
  have hε : (1 / 1000000 : ℝ) ≠ 0 := by norm_num
  exact ⟨hε, (Equals_exact ⟨⟨0, 0, 0⟩, ⟨3, 4, 0⟩⟩ ⟨⟨0, 0, 0⟩, ⟨3, 4, 0⟩⟩ _ hε).2.2.2.1⟩

/-! ## ApplyMatrix4 -/

theorem Vector3.ApplyMatrix4_Identity (v : Vector3 F) :
    v.ApplyMatrix4 Matrix4.Identity = v := by
  cases v
  simp [Vector3.ApplyMatrix4, Matrix4.Identity]

/-- C17: `ApplyMatrix4` with the identity transform leaves start and end
unchanged; for every matrix `m` the new start is the image of the old start
under `m` and the new end is the image of the old end, and neither depends on
the other endpoint. -/
theorem ApplyMatrix4_images (s e other : Vector3 ℝ) (m : Matrix4 ℝ) :
    Line3.ApplyMatrix4 ⟨s, e⟩ Matrix4.Identity = ⟨s, e⟩ ∧
    (Line3.ApplyMatrix4 ⟨s, e⟩ m).start = s.ApplyMatrix4 m ∧
    (Line3.ApplyMatrix4 ⟨s, e⟩ m).«end» = e.ApplyMatrix4 m ∧
    (Line3.ApplyMatrix4 ⟨s, other⟩ m).start = (Line3.ApplyMatrix4 ⟨s, e⟩ m).start ∧
    (Line3.ApplyMatrix4 ⟨other, e⟩ m).«end» = (Line3.ApplyMatrix4 ⟨s, e⟩ m).«end» := by
  refine ⟨?_, rfl, rfl, rfl, rfl⟩
  simp only [Line3.ApplyMatrix4, Vector3.ApplyMatrix4_Identity]

/-! ## Ray -/

/-- Distinct endpoints have a positive squared distance. -/
theorem Line3.specSquaredLength_pos (l : Line3 F) (h : l.start ≠ l.«end») :
    0 < l.specSquaredLength := by
  by_contra hle
  have hx := sq_nonneg (l.«end».X - l.start.X)
  have hy := sq_nonneg (l.«end».Y - l.start.Y)
  have hz := sq_nonneg (l.«end».Z - l.start.Z)
  simp only [Line3.specSquaredLength] at hle
  have ex : l.«end».X - l.start.X = 0 := pow_eq_zero_iff (two_ne_zero) |>.mp (by linarith)
  have ey : l.«end».Y - l.start.Y = 0 := pow_eq_zero_iff (two_ne_zero) |>.mp (by linarith)
  have ez : l.«end».Z - l.start.Z = 0 := pow_eq_zero_iff (two_ne_zero) |>.mp (by linarith)
  apply h
  rcases l with ⟨⟨sx, sy, sz⟩, ⟨ex', ey', ez'⟩⟩
  simp only [Vector3.mk.injEq]
  simp only at ex ey ez
  exact ⟨by linarith, by linarith, by linarith⟩

/-- The length of `l.Delta(nil)` is the square root of the squared length. -/
theorem Line3.Delta_Length (Sqrt : F → F) (l : Line3 F) :
    (l.Delta none).1.Length Sqrt = Sqrt l.specSquaredLength := by
  simp only [Line3.Delta, NewVector3, Vector3.SubVectors, Vector3.Length,
    Line3.specSquaredLength]
  congr 1
  ring

/-- C18: for a non-degenerate segment `Ray` returns a ray whose origin is
start and whose direction is `(end - start)` divided by its Euclidean length
(a positive number, so the direction points from start toward end); the
direction has length exactly 1; the segment is unchanged by the call. -/
theorem Ray_unit_direction (l : Line3 ℝ) (h : l.start ≠ l.«end») :
    ∃ r : Ray ℝ, (l.Ray Real.sqrt).1 = some r ∧
      r.origin = l.start ∧
      r.direction =
        ⟨(l.«end».X - l.start.X) / Real.sqrt l.specSquaredLength,
          (l.«end».Y - l.start.Y) / Real.sqrt l.specSquaredLength,
          (l.«end».Z - l.start.Z) / Real.sqrt l.specSquaredLength⟩ ∧
      0 < Real.sqrt l.specSquaredLength ∧
      r.direction.Length Real.sqrt = 1 ∧
      (l.Ray Real.sqrt).2 = l := by
  have hL : 0 < l.specSquaredLength := Line3.specSquaredLength_pos l h
  have hlen : 0 < Real.sqrt l.specSquaredLength := Real.sqrt_pos.mpr hL
  have hne : (l.Delta none).1.Length Real.sqrt ≠ 0 := by
    rw [Line3.Delta_Length]
    exact ne_of_gt hlen
  have hN : (l.Delta none).1.Normalize Real.sqrt =
      some ⟨(l.«end».X - l.start.X) / Real.sqrt l.specSquaredLength,
        (l.«end».Y - l.start.Y) / Real.sqrt l.specSquaredLength,
        (l.«end».Z - l.start.Z) / Real.sqrt l.specSquaredLength⟩ := by
    rw [Line3.Delta_Length] at hne
    simp only [Vector3.Normalize, Line3.Delta_Length, if_neg hne]
    rfl
  refine ⟨⟨l.start, ⟨_, _, _⟩⟩, ?_, rfl, rfl, hlen, ?_, ?_⟩
  · simp only [Line3.Ray, hN, NewRay]
  · simp only [Vector3.Length]
    have hs : Real.sqrt l.specSquaredLength * Real.sqrt l.specSquaredLength =
        l.specSquaredLength := Real.mul_self_sqrt (le_of_lt hL)
    have hsum : (l.«end».X - l.start.X) / Real.sqrt l.specSquaredLength *
          ((l.«end».X - l.start.X) / Real.sqrt l.specSquaredLength) +
        (l.«end».Y - l.start.Y) / Real.sqrt l.specSquaredLength *
          ((l.«end».Y - l.start.Y) / Real.sqrt l.specSquaredLength) +
        (l.«end».Z - l.start.Z) / Real.sqrt l.specSquaredLength *
          ((l.«end».Z - l.start.Z) / Real.sqrt l.specSquaredLength) = 1 := by
      have e1 : ∀ a : ℝ, a / Real.sqrt l.specSquaredLength *
          (a / Real.sqrt l.specSquaredLength) = a ^ 2 / l.specSquaredLength := by
        intro a
        rw [div_mul_div_comm, hs, sq]
      rw [e1, e1, e1, ← add_div, ← add_div]
      exact div_self (ne_of_gt hL)
    rw [hsum, Real.sqrt_one]
  · simp only [Line3.Ray, hN]

/-- C18 at start=(0,0,0), end=(3,4,0): the ray exists, starts at (0,0,0) and
its direction has length 1. -/
theorem Ray_unit_direction_witness :
    (⟨⟨0, 0, 0⟩, ⟨3, 4, 0⟩⟩ : Line3 ℝ).start ≠ (⟨⟨0, 0, 0⟩, ⟨3, 4, 0⟩⟩ : Line3 ℝ).«end» ∧
    ∃ r : Ray ℝ, (Line3.Ray Real.sqrt ⟨⟨0, 0, 0⟩, ⟨3, 4, 0⟩⟩).1 = some r ∧
      r.origin = ⟨0, 0, 0⟩ ∧ r.direction.Length Real.sqrt = 1 := by
  have h : (⟨⟨0, 0, 0⟩, ⟨3, 4, 0⟩⟩ : Line3 ℝ).start ≠
      (⟨⟨0, 0, 0⟩, ⟨3, 4, 0⟩⟩ : Line3 ℝ).«end» := by
    intro he
    have hx := congrArg Vector3.X he
    norm_num at hx
  obtain ⟨r, h1, h2, -, -, h5, -⟩ := Ray_unit_direction _ h
  exact ⟨h, r, h1, h2, h5⟩

/-! ## DistanceToVec3 against the true distance to the segment -/

theorem Vector3.DistanceTo_eq_sqDist (Sqrt : F → F) (v other : Vector3 F) :
    v.DistanceTo Sqrt other = Sqrt (v.sqDist other) := by
  rfl

theorem Vector3.sqDist_comm (v other : Vector3 F) : v.sqDist other = other.sqDist v := by
  simp only [Vector3.sqDist]
  ring

theorem Vector3.sqDist_nonneg (v other : Vector3 F) : 0 ≤ v.sqDist other := by
  simp only [Vector3.sqDist]
  have hx := mul_self_nonneg (v.X - other.X)
  have hy := mul_self_nonneg (v.Y - other.Y)
  have hz := mul_self_nonneg (v.Z - other.Z)
  linarith

theorem Line3.specSquaredLength_nonneg (l : Line3 F) : 0 ≤ l.specSquaredLength := by
  simp only [Line3.specSquaredLength]
  positivity

theorem Line3.specPointAt_zero (l : Line3 F) : l.specPointAt 0 = l.start := by
  simp [Line3.specPointAt]

theorem Line3.specPointAt_one (l : Line3 F) : l.specPointAt 1 = l.«end» := by
  simp [Line3.specPointAt]

/-- The squared distance from `p` to the line point at parameter `t` is a
quadratic polynomial in `t`. -/
theorem Line3.sqDist_specPointAt (l : Line3 F) (p : Vector3 F) (t : F) :
    p.sqDist (l.specPointAt t) =
      p.sqDist l.start - 2 * t * l.d1 p + t ^ 2 * l.specSquaredLength := by
  simp only [Vector3.sqDist, Line3.specPointAt, Line3.d1_eq, Line3.specSquaredLength]
  ring

theorem Line3.d2_eq_d1_sub (l : Line3 F) (p : Vector3 F) :
    l.d2 p = l.d1 p - l.specSquaredLength := by
  simp only [Line3.d1_eq, Line3.d2_eq, Line3.specSquaredLength]
  ring

/-- The point `pb` built by the interior branch is the line point at parameter `b`. -/
theorem Line3.interior_point_eq (l : Line3 F) (b : F) :
    ((l.Delta none).1.MultiplyScalar b).Add l.start = l.specPointAt b := by
  simp only [Line3.Delta, NewVector3, Vector3.SubVectors, Vector3.MultiplyScalar,
    Vector3.Add, Line3.specPointAt, Vector3.mk.injEq]
  refine ⟨?_, ?_, ?_⟩ <;> ring

/-- When `d1 ≤ 0` the start point is the nearest point of the segment. -/
theorem Line3.sqDist_start_le (l : Line3 F) (p : Vector3 F) (t : F)
    (h1 : l.d1 p ≤ 0) (ht : 0 ≤ t) :
    p.sqDist l.start ≤ p.sqDist (l.specPointAt t) := by
  rw [Line3.sqDist_specPointAt]
  have hL := Line3.specSquaredLength_nonneg l
  have a1 : 0 ≤ t * (-l.d1 p) := mul_nonneg ht (by linarith)
  have a2 : 0 ≤ t ^ 2 * l.specSquaredLength := mul_nonneg (sq_nonneg t) hL
  linarith

/-- When `d2 ≥ 0` the end point is the nearest point of the segment. -/
theorem Line3.sqDist_end_le (l : Line3 F) (p : Vector3 F) (t : F)
    (h2 : 0 ≤ l.d2 p) (ht : t ≤ 1) :
    p.sqDist l.«end» ≤ p.sqDist (l.specPointAt t) := by
  rw [← Line3.specPointAt_one l, Line3.sqDist_specPointAt, Line3.sqDist_specPointAt]
  rw [Line3.d2_eq_d1_sub] at h2
  have hL := Line3.specSquaredLength_nonneg l
  have a1 : 0 ≤ (1 - t) * (l.d1 p - l.specSquaredLength) :=
    mul_nonneg (by linarith) h2
  have a2 : 0 ≤ (1 - t) ^ 2 * l.specSquaredLength := mul_nonneg (sq_nonneg _) hL
  nlinarith

/-- For a non-degenerate segment the line point at `d1 / squaredLength` is the
nearest point of the whole line. -/
theorem Line3.sqDist_projection_le (l : Line3 F) (p : Vector3 F) (t : F)
    (hL : 0 < l.specSquaredLength) :
    p.sqDist (l.specPointAt (l.d1 p / l.specSquaredLength)) ≤ p.sqDist (l.specPointAt t) := by
  rw [Line3.sqDist_specPointAt, Line3.sqDist_specPointAt]
  have hm : l.d1 p / l.specSquaredLength * l.specSquaredLength = l.d1 p :=
    div_mul_cancel₀ _ (ne_of_gt hL)
  have a : 0 ≤ (t - l.d1 p / l.specSquaredLength) ^ 2 * l.specSquaredLength :=
    mul_nonneg (sq_nonneg _) (le_of_lt hL)
  have e : (l.d1 p / l.specSquaredLength) ^ 2 * l.specSquaredLength =
      l.d1 p / l.specSquaredLength * l.d1 p := by
    rw [sq, mul_assoc, hm]
  have e2 : (t - l.d1 p / l.specSquaredLength) ^ 2 * l.specSquaredLength =
      t ^ 2 * l.specSquaredLength - 2 * t * l.d1 p
        + l.d1 p / l.specSquaredLength * l.d1 p := by
    have : (t - l.d1 p / l.specSquaredLength) ^ 2 * l.specSquaredLength =
        t ^ 2 * l.specSquaredLength
          - 2 * t * (l.d1 p / l.specSquaredLength * l.specSquaredLength)
          + (l.d1 p / l.specSquaredLength) ^ 2 * l.specSquaredLength := by ring
    rw [this, hm, e]
  rw [e]
  linarith

theorem Line3.shortest_start (l : Line3 ℝ) (p : Vector3 ℝ) (h1 : l.d1 p ≤ 0) :
    l.specIsShortestDistance Real.sqrt p (p.DistanceTo Real.sqrt l.start) := by
  refine ⟨⟨0, le_refl 0, zero_le_one, by rw [Line3.specPointAt_zero]⟩, ?_⟩
  intro t ht0 _
  exact Real.sqrt_le_sqrt (Line3.sqDist_start_le l p t h1 ht0)

theorem Line3.shortest_end (l : Line3 ℝ) (p : Vector3 ℝ) (h2 : 0 ≤ l.d2 p) :
    l.specIsShortestDistance Real.sqrt p (p.DistanceTo Real.sqrt l.«end») := by
  refine ⟨⟨1, zero_le_one, le_refl 1, by rw [Line3.specPointAt_one]⟩, ?_⟩
  intro t _ ht1
  exact Real.sqrt_le_sqrt (Line3.sqDist_end_le l p t h2 ht1)

theorem Line3.specSquaredLength_pos_of_interior (l : Line3 F) (p : Vector3 F)
    (h1 : 0 < l.d1 p) (h2 : l.d2 p < 0) : 0 < l.specSquaredLength := by
  rw [Line3.d2_eq_d1_sub] at h2
  linarith

theorem Line3.shortest_interior (l : Line3 ℝ) (p : Vector3 ℝ)
    (h1 : 0 < l.d1 p) (h2 : l.d2 p < 0) :
    l.specIsShortestDistance Real.sqrt p
      (p.DistanceTo Real.sqrt (l.specPointAt (l.d1 p / l.specSquaredLength))) := by
  have hL := Line3.specSquaredLength_pos_of_interior l p h1 h2
  refine ⟨⟨l.d1 p / l.specSquaredLength, ?_, ?_, rfl⟩, ?_⟩
  · exact div_nonneg (le_of_lt h1) (le_of_lt hL)
  · rw [div_le_one hL]
    rw [Line3.d2_eq_d1_sub] at h2
    linarith
  · intro t _ _
    exact Real.sqrt_le_sqrt (Line3.sqDist_projection_le l p t hL)

/-- Over the reals the square root under `DistanceSq` is that of the squared length. -/
theorem Line3.DistanceSq_eq_sqrt (l : Line3 ℝ) :
    l.DistanceSq Real.sqrt = Real.sqrt l.specSquaredLength := by
  rw [Line3.DistanceSq_eq]
  simp only [Line3.specSquaredLength]
  congr 1
  ring

/-- The value of the interior branch is the distance from `p` to the line point
at parameter `b`. -/
theorem Line3.interior_value_eq (l : Line3 ℝ) (p : Vector3 ℝ) (b : ℝ) :
    (((l.Delta none).1.MultiplyScalar b).Add l.start).DistanceTo Real.sqrt p =
      p.DistanceTo Real.sqrt (l.specPointAt b) := by
  rw [Line3.interior_point_eq, Vector3.DistanceTo_eq_sqDist, Vector3.DistanceTo_eq_sqDist,
    Vector3.sqDist_comm]

/-- C19: for every segment and point (exact reals) `DistanceToVec3` returns a
value `r` that is non-negative and at least the true shortest distance `m` from
`p` to the segment; `r` is the distance from `p` to the point at some parameter
`t` of the line through start and end. -/
theorem DistanceToVec3_never_underestimates (l : Line3 ℝ) (p : Vector3 ℝ) :
    ∃ r m t : ℝ, l.DistanceToVec3 Real.sqrt p = some r ∧ 0 ≤ r ∧
      l.specIsShortestDistance Real.sqrt p m ∧ m ≤ r ∧
      r = p.DistanceTo Real.sqrt (l.specPointAt t) := by
  rcases le_or_lt (l.d1 p) 0 with h1 | h1
  · refine ⟨p.DistanceTo Real.sqrt l.start, p.DistanceTo Real.sqrt l.start, 0,
      Line3.DistanceToVec3_of_d1_nonpos Real.sqrt l p h1, Real.sqrt_nonneg _,
      Line3.shortest_start l p h1, le_refl _, by rw [Line3.specPointAt_zero]⟩
  · rcases le_or_lt 0 (l.d2 p) with h2 | h2
    · refine ⟨p.DistanceTo Real.sqrt l.«end», p.DistanceTo Real.sqrt l.«end», 1,
        Line3.DistanceToVec3_of_d2_nonneg Real.sqrt l p h1 h2, Real.sqrt_nonneg _,
        Line3.shortest_end l p h2, le_refl _, by rw [Line3.specPointAt_one]⟩
    · have hL := Line3.specSquaredLength_pos_of_interior l p h1 h2
      have hd : l.DistanceSq Real.sqrt ≠ 0 := by
        rw [Line3.DistanceSq_eq_sqrt]
        exact ne_of_gt (Real.sqrt_pos.mpr hL)
      refine ⟨p.DistanceTo Real.sqrt (l.specPointAt (l.d1 p / l.DistanceSq Real.sqrt)),
        p.DistanceTo Real.sqrt (l.specPointAt (l.d1 p / l.specSquaredLength)),
        l.d1 p / l.DistanceSq Real.sqrt, ?_, Real.sqrt_nonneg _,
        Line3.shortest_interior l p h1 h2, ?_, rfl⟩
      · rw [Line3.DistanceToVec3_eq, if_neg (not_le.mpr h1), if_neg (not_le.mpr h2),
          if_neg hd, Line3.interior_value_eq]
      · exact Real.sqrt_le_sqrt (Line3.sqDist_projection_le l p _ hL)

/-- C20: for a segment of Euclidean length exactly 1 and every point `p` (exact
reals) `DistanceToVec3` returns the true shortest distance from `p` to the
segment. -/
theorem DistanceToVec3_unit_segment (l : Line3 ℝ) (p : Vector3 ℝ)
    (h : Real.sqrt l.specSquaredLength = 1) :
    ∃ m : ℝ, l.DistanceToVec3 Real.sqrt p = some m ∧
      l.specIsShortestDistance Real.sqrt p m := by
  have hL : l.specSquaredLength = 1 := (Real.sqrt_eq_one).mp h
  have hD : l.DistanceSq Real.sqrt = 1 := by rw [Line3.DistanceSq_eq_sqrt, h]
  rcases le_or_lt (l.d1 p) 0 with h1 | h1
  · exact ⟨_, Line3.DistanceToVec3_of_d1_nonpos Real.sqrt l p h1, Line3.shortest_start l p h1⟩
  · rcases le_or_lt 0 (l.d2 p) with h2 | h2
    · exact ⟨_, Line3.DistanceToVec3_of_d2_nonneg Real.sqrt l p h1 h2,
        Line3.shortest_end l p h2⟩
    · refine ⟨p.DistanceTo Real.sqrt (l.specPointAt (l.d1 p / l.specSquaredLength)), ?_,
        Line3.shortest_interior l p h1 h2⟩
      rw [Line3.DistanceToVec3_eq, if_neg (not_le.mpr h1), if_neg (not_le.mpr h2), hD,
        if_neg one_ne_zero, Line3.interior_value_eq, hL]

/-- C20 at start=(0,0,0), end=(1,0,0), p=(1/2,3,0): the segment has length 1
and the returned value is the shortest distance. -/
theorem DistanceToVec3_unit_segment_witness :
    Real.sqrt (Line3.specSquaredLength (F := ℝ) ⟨⟨0, 0, 0⟩, ⟨1, 0, 0⟩⟩) = 1 ∧
    ∃ m : ℝ, Line3.DistanceToVec3 Real.sqrt ⟨⟨0, 0, 0⟩, ⟨1, 0, 0⟩⟩ ⟨1 / 2, 3, 0⟩ = some m ∧
      Line3.specIsShortestDistance Real.sqrt ⟨⟨0, 0, 0⟩, ⟨1, 0, 0⟩⟩ ⟨1 / 2, 3, 0⟩ m := by
  have h : Real.sqrt (Line3.specSquaredLength (F := ℝ) ⟨⟨0, 0, 0⟩, ⟨1, 0, 0⟩⟩) = 1 := by
    simp [Line3.specSquaredLength]
  exact ⟨h, DistanceToVec3_unit_segment _ _ h⟩

end math32
